import Mathlib

/-!
Formal model of the QMT_Client trading core.

The definitions below are shallow embeddings of the Python sources:
`src/trade/trader.py` (StockTrader), `src/core/strategy_manager.py`
(StrategyManager.execute_strategy), `src/services/trade_service.py`
(TradeService) and `src/position_manager.py` (PositionManager).
Monetary amounts and prices are modelled as rationals, volumes as
integers.  Python `int(x)` truncates toward zero and `x // y` is floor
division; both are modelled explicitly.  External effects (HTTP calls,
the quote service, file I/O) are modelled as explicit inputs in an
environment record; the durable position/asset files are modelled as an
explicit state record threaded through each operation.
-/

namespace QMT

/-- Python `int()` applied to a rational number: truncation toward zero. -/
def pyInt (x : ℚ) : ℤ := if 0 ≤ x then ⌊x⌋ else ⌈x⌉

/-- Configured trading volume step, `config.get ('trading.volume_step', 100)`.
No `config/config.yaml` ships with the repository, so the call-site default
of 100 (also `VOLUME_STEP = 100` in `config/settings.py`) is the effective
value. -/
def volumeStep : ℤ := 100

/-- Configured minimum tradable volume, `config.get ('trading.min_volume', 100)`. -/
def minVolume : ℤ := 100

/-- Configured trade frequency limit, `config.get ('trading.trade_frequency_limit', 10)`. -/
def tradeFrequencyLimit : ℕ := 10

/-- Configured position cache TTL in seconds, `config.get ('cache.position_ttl', 60)`. -/
def positionTTL : ℚ := 60

/-- Configured maximum price deviation, `config.get ('trading.price_deviation', 0.02)`. -/
def maxPriceDeviation : ℚ := 2 / 100

/-- Embedding of `StockTrader._calculate_buy_volume` (trader.py 907-955).
`totalAssets` and `availableCash` are the values returned by
`self.update_assets()` inside that function; `positionPct` is the 0-100
integer ratio.  Note that the function uses only total assets and
available cash: the value already held in the stock is not consulted. -/
def calculateBuyVolume (totalAssets availableCash : ℚ) (positionPct : ℤ)
    (price : ℚ) : ℤ :=
  if price ≤ 0 then 0
  else
    let target0 : ℚ := totalAssets * ((positionPct : ℚ) / 100)
    let target : ℚ := if availableCash < target0 then availableCash else target0
    let volume : ℤ := pyInt (target / price / (volumeStep : ℚ)) * volumeStep
    if volume < minVolume then
      if (minVolume : ℚ) * price ≤ target then minVolume else 0
    else volume

/-- Straight-line tail of `StockTrader._calculate_sell_volume`
(trader.py 1004-1016): cap at holdings, round to the volume step with
`int(x / step) * step`, then re-promote a zero result to the minimum
volume when the holding suffices. -/
def sellVolumeFinish (sv currentHoldings : ℤ) : ℤ :=
  let sv1 : ℤ := min sv currentHoldings
  let sv2 : ℤ := pyInt ((sv1 : ℚ) / (volumeStep : ℚ)) * volumeStep
  if sv2 = 0 ∧ minVolume ≤ currentHoldings then minVolume else sv2

/-- Embedding of `StockTrader._calculate_sell_volume` (trader.py 957-1020).
`positionPct` is relative to the current holding. -/
def calculateSellVolume (positionPct currentHoldings : ℤ) : ℤ :=
  if currentHoldings ≤ 0 then 0
  else if positionPct ≤ 0 ∨ 100 < positionPct then 0
  else
    let sv : ℤ := pyInt ((currentHoldings : ℚ) * ((positionPct : ℚ) / 100))
    if 0 < sv ∧ sv < minVolume then
      if minVolume ≤ currentHoldings then sellVolumeFinish minVolume currentHoldings
      else 0
    else sellVolumeFinish sv currentHoldings

/-- Embedding of `StockTrader._calculate_trim_volume` (trader.py 1623-1693).
`origPositionPct` is the `original_position_ratio` field fetched from the
positions API (`none` when the field is absent).  Python's
`if not original_position_ratio` treats both a missing field and the
value `0` as falsy, so both fall back to `_calculate_sell_volume`; a
negative value then hits `original_position_ratio <= 0` and returns 0. -/
def calculateTrimVolume (trimPct : ℤ) (origPositionPct : Option ℚ)
    (currentHoldings : ℤ) : ℤ :=
  match origPositionPct with
  | none => calculateSellVolume trimPct currentHoldings
  | some r =>
    if r = 0 then calculateSellVolume trimPct currentHoldings
    else if r ≤ 0 then 0
    else
      let sellFrac : ℚ := min ((trimPct : ℚ) / r) 1
      let sv0 : ℤ := pyInt ((currentHoldings : ℚ) * sellFrac)
      let sv1 : ℤ := (Int.fdiv sv0 volumeStep) * volumeStep
      let sv2 : ℤ := if sv1 = 0 ∧ minVolume ≤ currentHoldings then minVolume else sv1
      min sv2 currentHoldings

/-- Embedding of `StockTrader._calculate_weighted_average_price`
(trader.py 827-843).  Rational division; the Python code would raise on a
zero total volume, proofs therefore assume positive volumes. -/
def calculateWeightedAveragePrice (oldVolume : ℤ) (oldPrice : ℚ)
    (newVolume : ℤ) (newPrice : ℚ) : ℚ :=
  ((oldVolume : ℚ) * oldPrice + (newVolume : ℚ) * newPrice) /
    ((oldVolume : ℚ) + (newVolume : ℚ))

/-- Embedding of the buy branch of `TradeService._update_position`
(trade_service.py 103-120) for an existing position: returns the new
quantity and the new average price. -/
def tradeServiceBuyUpdate (oldQuantity : ℤ) (oldAveragePrice : ℚ)
    (quantity : ℤ) (price : ℚ) : ℤ × ℚ :=
  (oldQuantity + quantity,
   ((oldQuantity : ℚ) * oldAveragePrice + (quantity : ℚ) * price) /
     ((oldQuantity : ℚ) + (quantity : ℚ)))

/-- Embedding of `StockTrader._get_current_price` (trader.py 1022-1077):
resolves the quoted price against an optional band, accepting the
favorable side (buy below the minimum, sell above the maximum). -/
def getCurrentPrice (currentPrice : ℚ) (minPrice maxPrice : Option ℚ)
    (action : String) : Option ℚ :=
  match minPrice, maxPrice with
  | none, none => some currentPrice
  | some lo, some hi =>
    if lo ≤ currentPrice ∧ currentPrice ≤ hi then some currentPrice
    else if action = "buy" ∧ currentPrice < lo then some currentPrice
    else if action = "sell" ∧ hi < currentPrice then some currentPrice
    else none
  | some lo, none =>
    if lo ≤ currentPrice then some currentPrice
    else if action = "buy" then some currentPrice
    else none
  | none, some hi =>
    if currentPrice ≤ hi then some currentPrice
    else if action = "sell" then some currentPrice
    else none

/-- Purge step of `StockTrader._check_trade_frequency` (trader.py 1114-1116):
pop timestamps from the front while they are more than 60 seconds old. -/
def purgeTradeTimes (times : List ℚ) (now : ℚ) : List ℚ :=
  times.dropWhile (fun t => decide (60 < now - t))

/-- Embedding of `StockTrader._check_trade_frequency` (trader.py 1106-1125):
purge old timestamps, reject when the window is full, otherwise record
the new timestamp.  Returns the decision and the mutated deque (the deque
has `maxlen` equal to the limit, which never truncates because a
timestamp is only appended when the purged length is below the limit). -/
def checkTradeFrequency (times : List ℚ) (now : ℚ) : Bool × List ℚ :=
  let purged := purgeTradeTimes times now
  if tradeFrequencyLimit ≤ purged.length then (false, purged)
  else (true, purged ++ [now])

/-- Fold of `checkTradeFrequency` over a sequence of attempted trade times:
returns the list of accepted timestamps and the final deque. -/
def runFreq (times : List ℚ) : List ℚ → List ℚ × List ℚ
  | [] => ([], times)
  | t :: ts =>
    let step := checkTradeFrequency times t
    let rest := runFreq step.2 ts
    (if step.1 then t :: rest.1 else rest.1, rest.2)

/-- Number of timestamps in `l` lying in the trailing 60-second window
ending at `s`. -/
def windowCount (l : List ℚ) (s : ℚ) : ℕ :=
  l.countP (fun x => decide (s - 60 < x ∧ x ≤ s))

/-- One entry of the local positions file (`data/positions.json`):
volume held and average cost price. -/
structure Position where
  volume : ℤ
  price : ℚ
deriving DecidableEq

/-- In-memory and durable state of a `StockTrader`: the positions store,
`self.total_cash` (checked by `_check_cash_sufficient`), `self.cash`
(written by `_update_cash_balance`) and the `trade_times` deque. -/
structure TraderState where
  positions : List (String × Position)
  totalCash : ℚ
  cash : ℚ
  tradeTimes : List ℚ
deriving DecidableEq

/-- Dictionary lookup on the positions store. -/
def lookupPosition (positions : List (String × Position)) (code : String) :
    Option Position :=
  (positions.find? (fun q => q.fst == code)).map Prod.snd

/-- Dictionary deletion on the positions store. -/
def removePosition (positions : List (String × Position)) (code : String) :
    List (String × Position) :=
  positions.filter (fun q => !(q.fst == code))

/-- Dictionary update on the positions store. -/
def setPosition (positions : List (String × Position)) (code : String)
    (p : Position) : List (String × Position) :=
  (code, p) :: removePosition positions code

/-- The strategy record fetched from `GET /strategies/:id` inside
`sell_stock`: its action and its execution status. -/
structure StrategyInfo where
  action : String
  executionStatus : String
deriving DecidableEq

/-- Whether the fetched strategy reports `execution_status == "completed"`
(trader.py 1397-1399); `none` models both the absence of a strategy id
and a failed fetch. -/
def strategyCompleted (strategy : Option StrategyInfo) : Bool :=
  match strategy with
  | some s => s.executionStatus == "completed"
  | none => false

/-- Whether the fetched strategy has `action == "trim"` (trader.py 1377-1381). -/
def isTrimStrategy (strategy : Option StrategyInfo) : Bool :=
  match strategy with
  | some s => s.action == "trim"
  | none => false

/-- The error kinds raised by `buy_stock` / `sell_stock`. -/
inductive TradeErr
  | invalidTime
  | frequencyLimit
  | priceNotMatched
  | priceDeviation
  | insufficientFunds
  | noPosition
deriving DecidableEq

/-- The result dictionary returned by `buy_stock` / `sell_stock`. -/
structure TradeResult where
  status : String
  price : ℚ
  volume : ℤ
  amount : ℚ
deriving DecidableEq

/-- Outcome of a trade call: a returned result dictionary or a raised
trade error. -/
inductive TradeOutcome
  | ok (result : TradeResult)
  | err (e : TradeErr)
deriving DecidableEq

/-- External inputs consumed by one `buy_stock` call: the quoted price,
the band and ratio arguments, the asset figures fetched by
`update_assets` inside `_calculate_buy_volume`, the cash figure fetched
by `_update_cash_balance`, and the ambient clock/calendar. -/
structure BuyEnv where
  stockCode : String
  quotePrice : ℚ
  minPrice : Option ℚ
  maxPrice : Option ℚ
  positionPct : ℤ
  apiTotalAssets : ℚ
  apiAvailableCash : ℚ
  apiCash : ℚ
  isTradingTime : Bool
  now : ℚ
deriving DecidableEq

/-- Embedding of `StockTrader.buy_stock` (trader.py 1234-1341).  The
source fetches the quote, checks the price band inline (rejecting both a
price above `max_price` and a price below `min_price`), sizes the order
via `_calculate_buy_volume`, checks cash sufficiency against
`self.total_cash`, then mutates the position store and the cash balance.
It never consults the trading calendar, the trade-frequency window or
the price-deviation guard. -/
def buyStock (env : BuyEnv) (st : TraderState) : TradeOutcome × TraderState :=
  let p := env.quotePrice
  if match env.minPrice with | some lo => decide (p < lo) | none => false then
    (.err .priceNotMatched, st)
  else if match env.maxPrice with | some hi => decide (hi < p) | none => false then
    (.err .priceNotMatched, st)
  else
    let volume := calculateBuyVolume env.apiTotalAssets env.apiAvailableCash
      env.positionPct p
    if volume ≤ 0 then
      (.ok { status := "failed", price := p, volume := 0, amount := 0 }, st)
    else
      let required := p * (volume : ℚ)
      if st.totalCash < required then (.err .insufficientFunds, st)
      else
        let newPositions :=
          match lookupPosition st.positions env.stockCode with
          | some pos =>
            setPosition st.positions env.stockCode
              { volume := pos.volume + volume,
                price := calculateWeightedAveragePrice pos.volume pos.price
                  volume p }
          | none =>
            setPosition st.positions env.stockCode { volume := volume, price := p }
        (.ok { status := "success", price := p, volume := volume,
               amount := required },
         { st with positions := newPositions, cash := env.apiCash - required })

/-- External inputs consumed by one `sell_stock` call.  `quotePrice1` is
the quote used by `_get_current_price`, `quotePrice2` the (separate)
quote fetched inside `_check_price_deviation`; `origPositionPct` is the
`original_position_ratio` fetched from the positions API for trim
sizing; `apiCash` is the cash figure fetched by `_update_cash_balance`. -/
structure SellEnv where
  stockCode : String
  quotePrice1 : ℚ
  quotePrice2 : ℚ
  minPrice : Option ℚ
  maxPrice : Option ℚ
  positionPct : ℤ
  strategy : Option StrategyInfo
  origPositionPct : Option ℚ
  apiCash : ℚ
  isTradingTime : Bool
  now : ℚ
deriving DecidableEq

/-- Embedding of `StockTrader.sell_stock` (trader.py 1343-1521).
Pipeline order as in the source: trim detection, completed-status early
return, trading-time check, trade-frequency check (which mutates the
timestamp deque even when a later stage blocks the sale), price-band
resolution via `_get_current_price` (a returned price of 0 is falsy in
Python and is treated as not matched), price-deviation check, position
existence checks, sizing, then the ledger mutation. -/
def sellStock (env : SellEnv) (st : TraderState) : TradeOutcome × TraderState :=
  if strategyCompleted env.strategy then
    (.ok { status := "success", price := 0, volume := 0, amount := 0 }, st)
  else if !env.isTradingTime then (.err .invalidTime, st)
  else
    let purged := purgeTradeTimes st.tradeTimes env.now
    if tradeFrequencyLimit ≤ purged.length then
      (.err .frequencyLimit, { st with tradeTimes := purged })
    else
      let st1 : TraderState := { st with tradeTimes := purged ++ [env.now] }
      match getCurrentPrice env.quotePrice1 env.minPrice env.maxPrice "sell" with
      | none => (.err .priceNotMatched, st1)
      | some p =>
        if p = 0 then (.err .priceNotMatched, st1)
        else if maxPriceDeviation < |env.quotePrice2 - p| / p then
          (.err .priceDeviation, st1)
        else
          match lookupPosition st.positions env.stockCode with
          | none => (.err .noPosition, st1)
          | some pos =>
            if pos.volume ≤ 0 then (.err .noPosition, st1)
            else
              let vol :=
                if isTrimStrategy env.strategy then
                  calculateTrimVolume env.positionPct env.origPositionPct pos.volume
                else calculateSellVolume env.positionPct pos.volume
              if vol ≤ 0 then
                (.ok { status := "failed", price := p, volume := 0, amount := 0 },
                 st1)
              else
                let amount := p * (vol : ℚ)
                let newPositions :=
                  if pos.volume ≤ vol then removePosition st1.positions env.stockCode
                  else setPosition st1.positions env.stockCode
                    { pos with volume := pos.volume - vol }
                (.ok { status := "success", price := p, volume := vol,
                       amount := amount },
                 { st1 with positions := newPositions,
                            cash := env.apiCash + amount })

/-- One position entry of the remote snapshot consumed by
`StockTrader.update_positions` (trader.py 1562-1572). -/
structure RemotePosition where
  stockCode : String
  totalVolume : ℤ
  dynamicCost : ℚ
  marketValue : ℚ
deriving DecidableEq

/-- One reconciled entry of the local positions file as written by
`update_positions`. -/
structure LedgerPosition where
  volume : ℤ
  price : ℚ
  marketValue : ℚ
deriving DecidableEq

/-- The assets record (`data/assets.json`): cash, total assets, total
market value. -/
structure Assets where
  cash : ℚ
  totalAssets : ℚ
  totalMarketValue : ℚ
deriving DecidableEq

/-- State touched by `update_positions`: the position ledger, the asset
snapshot and the `_last_update` timestamp. -/
structure LedgerState where
  positions : List (String × LedgerPosition)
  assets : Assets
  lastUpdate : ℚ
deriving DecidableEq

/-- The funds record returned by `StockTrader._get_total_assets`
(trader.py 540-599): available cash and total assets as reported by the
remote account API. -/
structure ApiFunds where
  cash : ℚ
  totalAssets : ℚ
deriving DecidableEq

/-- Embedding of the asset-loading choice made by
`StockTrader._load_assets` (trader.py 473-538): when the funds API
answered with positive cash or positive total assets, its record is
preferred (with total market value defaulted to 0); otherwise the stored
assets record is used.  `none` models an API exception. -/
def loadAssets (stored : Assets) (apiFunds : Option ApiFunds) : Assets :=
  match apiFunds with
  | some f =>
    if 0 < f.cash ∨ 0 < f.totalAssets then
      { cash := f.cash, totalAssets := f.totalAssets, totalMarketValue := 0 }
    else stored
  | none => stored

/-- Embedding of `StockTrader.update_positions` (trader.py 1523-1621).
Within the TTL it returns success without touching anything; otherwise it
replaces the position ledger wholesale from the remote snapshot (`none`
models a failed fetch), recomputes the total market value, carries over
the cash of the assets record returned by `_load_assets` — which prefers
the funds API's figure when the API answers, see `loadAssets` — and sets
`total_assets = total_market_value + cash`. -/
def updatePositions (st : LedgerState) (now : ℚ) (apiFunds : Option ApiFunds)
    (remote : Option (List RemotePosition)) : Bool × LedgerState :=
  if now - st.lastUpdate < positionTTL then (true, st)
  else
    match remote with
    | none => (false, st)
    | some ps =>
      let positionsDict := ps.map (fun p =>
        (p.stockCode,
         LedgerPosition.mk p.totalVolume p.dynamicCost p.marketValue))
      let totalMarketValue := (ps.map (fun p => p.marketValue)).sum
      let availableCash := (loadAssets st.assets apiFunds).cash
      let totalAssets := totalMarketValue + availableCash
      (true,
       { positions := positionsDict,
         assets := { cash := availableCash, totalAssets := totalAssets,
                     totalMarketValue := totalMarketValue },
         lastUpdate := now })

/-- Embedding of `PositionManager.update_positions`
(position_manager.py 94-152): the same reconcile arithmetic, but the
cash it carries over is read directly from the manager's own assets
record (`self._assets['available_cash']`), with no API-preferring load. -/
def positionManagerUpdatePositions (st : LedgerState) (now : ℚ)
    (remote : Option (List RemotePosition)) : Bool × LedgerState :=
  if now - st.lastUpdate < positionTTL then (true, st)
  else
    match remote with
    | none => (false, st)
    | some ps =>
      let positionsDict := ps.map (fun p =>
        (p.stockCode,
         LedgerPosition.mk p.totalVolume p.dynamicCost p.marketValue))
      let totalMarketValue := (ps.map (fun p => p.marketValue)).sum
      let availableCash := st.assets.cash
      let totalAssets := totalMarketValue + availableCash
      (true,
       { positions := positionsDict,
         assets := { cash := availableCash, totalAssets := totalAssets,
                     totalMarketValue := totalMarketValue },
         lastUpdate := now })

/-- Outcome of the buy-branch sizing of `StrategyManager.execute_strategy`
(strategy_manager.py 463-503). -/
inductive StratBuyOutcome
  | completedNoAction
  | pendingInsufficient
  | order (volume : ℤ)
deriving DecidableEq

/-- Embedding of the buy-branch sizing of
`StrategyManager.execute_strategy` (strategy_manager.py 463-503):
the target amount is total assets times the ratio, minus the market
value of an existing holding; a non-positive remainder completes the
strategy with no order, a zero rounded volume leaves it pending. -/
def executeStrategyBuySizing (totalAssets : ℚ) (positionPct : ℤ) (price : ℚ)
    (heldMarketValue : Option ℚ) : StratBuyOutcome :=
  let target0 : ℚ := totalAssets * ((positionPct : ℚ) / 100)
  let target : ℚ :=
    match heldMarketValue with
    | some mv => target0 - mv
    | none => target0
  if target ≤ 0 then .completedNoAction
  else
    let volume : ℤ := pyInt (target / price / 100) * 100
    if volume = 0 then .pendingInsufficient else .order volume

/-- A broker position as consulted by the add/trim branches of
`StrategyManager.execute_strategy`. -/
structure BrokerPosition where
  totalVolume : ℤ
  availableVolume : ℤ
  origPositionPct : ℚ
deriving DecidableEq

/-- Outcome of the trim-branch sizing of `StrategyManager.execute_strategy`
(strategy_manager.py 617-681). -/
inductive StratTrimOutcome
  | completedNoPosition
  | pendingInvalidRatio
  | pendingTooSmall
  | pendingNotEnough
  | order (volume : ℤ)
deriving DecidableEq

/-- Embedding of the trim-branch sizing of
`StrategyManager.execute_strategy` (strategy_manager.py 617-681): no
position completes the strategy; `original_position_ratio <= 0` is
rejected with the division-guard message `原始仓位比例异常` as a pending
sizing failure. -/
def executeStrategyTrimSizing (position : Option BrokerPosition)
    (positionPct : ℤ) : StratTrimOutcome :=
  match position with
  | none => .completedNoPosition
  | some pos =>
    if pos.origPositionPct ≤ 0 then .pendingInvalidRatio
    else
      let volume0 : ℤ :=
        pyInt ((pos.totalVolume : ℚ) * ((positionPct : ℚ) / pos.origPositionPct))
      let volume : ℤ := (Int.fdiv volume0 100) * 100
      if volume = 0 then .pendingTooSmall
      else if pos.availableVolume < volume then .pendingNotEnough
      else .order volume

/-- Concrete ledger used to instantiate the reconciliation theorems:
500000 in cash, no positions, last update at time 0. -/
def exLedger : LedgerState where
  positions := []
  assets := { cash := 500000, totalAssets := 500000, totalMarketValue := 0 }
  lastUpdate := 0

/-- Concrete remote snapshot with one position worth 60000. -/
def exRemote : List RemotePosition :=
  [{ stockCode := "600519", totalVolume := 1000, dynamicCost := 50,
     marketValue := 60000 }]

/-- The ledger of `exLedger` with the last update stamped at time 70. -/
def exLedgerFresh : LedgerState := { exLedger with lastUpdate := 70 }

/-- Concrete trader state holding 2000 shares of 600519 at cost 100, with
1000000 cash. -/
def exStateHeld : TraderState where
  positions := [("600519", { volume := 2000, price := 100 })]
  totalCash := 1000000
  cash := 1000000
  tradeTimes := []

/-- Concrete trader state with no positions and 1000000 cash. -/
def exState0 : TraderState where
  positions := []
  totalCash := 1000000
  cash := 1000000
  tradeTimes := []

/-- Concrete buy call: quote 100, no band, 10 percent target, total assets
and cash 1000000, during trading hours. -/
def exBuyEnvHeld : BuyEnv where
  stockCode := "600519"
  quotePrice := 100
  minPrice := none
  maxPrice := none
  positionPct := 10
  apiTotalAssets := 1000000
  apiAvailableCash := 1000000
  apiCash := 1000000
  isTradingTime := true
  now := 0

/-- Concrete buy call whose quote 9 lies strictly below the configured
band minimum 10 (and below the maximum 20). -/
def exBuyEnvBelowMin : BuyEnv :=
  { exBuyEnvHeld with quotePrice := 9, minPrice := some 10, maxPrice := some 20 }

/-- Concrete buy call issued outside trading hours. -/
def exBuyEnvOffHours : BuyEnv := { exBuyEnvHeld with isTradingTime := false }

/-- Concrete sell call whose quote 100 lies below the band [1700, 1800],
with no strategy attached, during trading hours. -/
def exSellEnvPNM : SellEnv where
  stockCode := "600519"
  quotePrice1 := 100
  quotePrice2 := 100
  minPrice := some 1700
  maxPrice := some 1800
  positionPct := 50
  strategy := none
  origPositionPct := none
  apiCash := 1000000
  isTradingTime := true
  now := 0

/-- The sell call of `exSellEnvPNM` issued outside trading hours. -/
def exSellEnvOffHours : SellEnv := { exSellEnvPNM with isTradingTime := false }

/-- The sell call of `exSellEnvPNM` carrying a strategy whose fetched
execution status is already completed. -/
def exSellEnvCompleted : SellEnv :=
  { exSellEnvPNM with
      strategy := some { action := "sell", executionStatus := "completed" },
      isTradingTime := false }

lemma pyInt_nonneg {x : ℚ} (h : 0 ≤ x) : 0 ≤ pyInt x := by
  simp only [pyInt, if_pos h]
  exact Int.floor_nonneg.mpr h

lemma pyInt_le_of_le_int {x : ℚ} {n : ℤ} (h0 : 0 ≤ x) (h : x ≤ (n : ℚ)) :
    pyInt x ≤ n := by
  simp only [pyInt, if_pos h0]
  exact Int.le_of_sub_nonneg (by
    have := Int.floor_le_floor h
    simpa using Int.sub_nonneg.mpr this)

lemma weightedSum_pos {a b : ℤ} (ha : 0 < a) (hb : 0 < b) :
    ((a : ℚ) + (b : ℚ)) ≠ 0 := by
  have ha' : (0 : ℚ) < (a : ℚ) := by exact_mod_cast ha
  have hb' : (0 : ℚ) < (b : ℚ) := by exact_mod_cast hb
  positivity

/-- C7: for every buy into an existing position with positive old and new
volumes, the weighted average computed by
`StockTrader._calculate_weighted_average_price` satisfies
old_volume·old_cost + new_volume·price = (old_volume+new_volume)·new_average_cost
exactly over the rationals, and the buy branch of
`TradeService._update_position` stores exactly this weighted average as the
new quantity and average price. -/
theorem weighted_average_cost_identity (oldVolume newVolume : ℤ)
    (oldPrice newPrice : ℚ) (hov : 0 < oldVolume) (hnv : 0 < newVolume) :
    (oldVolume : ℚ) * oldPrice + (newVolume : ℚ) * newPrice =
      (((oldVolume + newVolume : ℤ)) : ℚ) *
        calculateWeightedAveragePrice oldVolume oldPrice newVolume newPrice ∧
    tradeServiceBuyUpdate oldVolume oldPrice newVolume newPrice =
      (oldVolume + newVolume,
       calculateWeightedAveragePrice oldVolume oldPrice newVolume newPrice) := by
  have htot := weightedSum_pos hov hnv
  constructor
  · unfold calculateWeightedAveragePrice
    push_cast
    field_simp
  · rfl

/-- Witness for C7 at old volume 100 at cost 50, buying 100 more at 60. -/
theorem weighted_average_cost_identity_witness :
    (100 : ℚ) * 50 + (100 : ℚ) * 60 =
      (((100 + 100 : ℤ)) : ℚ) * calculateWeightedAveragePrice 100 50 100 60 ∧
    tradeServiceBuyUpdate 100 50 100 60 =
      (200, calculateWeightedAveragePrice 100 50 100 60) := by
  have h := weighted_average_cost_identity 100 100 50 60 (by decide) (by decide)
  exact ⟨h.1, h.2⟩

/-- C6 counterexample: the ledger stores 500000 in cash, the funds API
reports 300000, and a reconcile past the TTL saves 300000 — the stored
cash value changes, because `StockTrader.update_positions` takes the
carried-over cash from `_load_assets`, which prefers the API's figure. -/
theorem reconcile_overwrites_cash_cx :
    exLedger.assets.cash = 500000 ∧
    (updatePositions exLedger 100
        (some { cash := 300000, totalAssets := 300000 })
        (some exRemote)).2.assets.cash = 300000 := by
  constructor
  · norm_num [exLedger]
  · norm_num [updatePositions, loadAssets, exLedger, positionTTL]

/-- C6 amended: the reconcile arithmetic never touches the cash of the
assets record it loaded, and recomputes total_assets as cash plus total
market value.  `PositionManager.update_positions` loads the stored
record directly, so its reconcile preserves the stored cash;
`StockTrader.update_positions` loads via `_load_assets` and therefore
carries over the funds API's cash when the API answers (preserving the
stored cash only when it does not).  Both versions perform no ledger
mutation at all within the position TTL. -/
theorem reconcile_cash_semantics (st : LedgerState) (now : ℚ)
    (api : Option ApiFunds) (remote : Option (List RemotePosition)) :
    (positionTTL ≤ now - st.lastUpdate →
      ∀ ps, remote = some ps →
        (updatePositions st now api remote).2.assets.cash =
          (loadAssets st.assets api).cash ∧
        (updatePositions st now api remote).2.assets.totalAssets =
          (updatePositions st now api remote).2.assets.cash +
            (updatePositions st now api remote).2.assets.totalMarketValue) ∧
    (updatePositions st now none remote).2.assets.cash = st.assets.cash ∧
    (positionManagerUpdatePositions st now remote).2.assets.cash =
      st.assets.cash ∧
    (positionTTL ≤ now - st.lastUpdate →
      ∀ ps, remote = some ps →
        (positionManagerUpdatePositions st now remote).2.assets.totalAssets =
          (positionManagerUpdatePositions st now remote).2.assets.cash +
            (positionManagerUpdatePositions st now remote).2.assets.totalMarketValue) ∧
    (now - st.lastUpdate < positionTTL →
      updatePositions st now api remote = (true, st) ∧
      positionManagerUpdatePositions st now remote = (true, st)) := by
  refine ⟨fun httl ps hps => ?_, ?_, ?_, fun httl ps hps => ?_, fun hlt => ?_⟩
  · subst hps
    have hnlt : ¬ now - st.lastUpdate < positionTTL := not_lt.mpr httl
    refine ⟨by simp [updatePositions, hnlt], ?_⟩
    simp [updatePositions, hnlt]
    ring
  · by_cases hlt : now - st.lastUpdate < positionTTL
    · simp [updatePositions, hlt]
    · cases remote with
      | none => simp [updatePositions, hlt]
      | some ps => simp [updatePositions, hlt, loadAssets]
  · by_cases hlt : now - st.lastUpdate < positionTTL
    · simp [positionManagerUpdatePositions, hlt]
    · cases remote with
      | none => simp [positionManagerUpdatePositions, hlt]
      | some ps => simp [positionManagerUpdatePositions, hlt]
  · subst hps
    have hnlt : ¬ now - st.lastUpdate < positionTTL := not_lt.mpr httl
    simp [positionManagerUpdatePositions, hnlt]
    ring
  · exact ⟨by simp [updatePositions, hlt],
      by simp [positionManagerUpdatePositions, hlt]⟩

/-- Witness for C6 amended: the PositionManager reconcile on a concrete
ledger preserves cash; the trader reconcile carries over exactly the
loaded (API-preferred) cash; a call inside the TTL is a no-op. -/
theorem reconcile_cash_semantics_witness :
    (positionManagerUpdatePositions exLedger 100 (some exRemote)).2.assets.cash =
      exLedger.assets.cash ∧
    (updatePositions exLedger 100
        (some { cash := 300000, totalAssets := 300000 })
        (some exRemote)).2.assets.cash =
      (loadAssets exLedger.assets
        (some { cash := 300000, totalAssets := 300000 })).cash ∧
    positionManagerUpdatePositions exLedgerFresh 100 none =
      (true, exLedgerFresh) := by
  refine ⟨(reconcile_cash_semantics exLedger 100 none (some exRemote)).2.2.1,
    ?_, ?_⟩
  · exact ((reconcile_cash_semantics exLedger 100
      (some { cash := 300000, totalAssets := 300000 }) (some exRemote)).1
      (by norm_num [positionTTL, exLedger]) exRemote rfl).1
  · exact ((reconcile_cash_semantics exLedgerFresh 100 none none).2.2.2.2
      (by norm_num [positionTTL, exLedgerFresh, exLedger])).2

/-- C1 counterexample: a buy of 10 percent of 1000000 total assets at
price 100 while 2000 shares (market value 200000) are already held.  The
claimed sizing rule gives needed_value = 100000 - 200000 ≤ 0 and volume
0, but `buy_stock` sizes through `_calculate_buy_volume`, which ignores
the existing holding and buys 1000 shares. -/
theorem buy_sizing_ignores_holding_cx :
    lookupPosition exStateHeld.positions "600519" =
      some { volume := 2000, price := 100 } ∧
    (buyStock exBuyEnvHeld exStateHeld).1 =
      .ok { status := "success", price := 100, volume := 1000, amount := 100000 } ∧
    (1000000 : ℚ) * ((10 : ℚ) / 100) - 2000 * 100 < 0 := by
  refine ⟨by norm_num [exStateHeld, lookupPosition], ?_, by norm_num⟩
  norm_num [buyStock, exBuyEnvHeld, exStateHeld, calculateBuyVolume, pyInt,
    volumeStep, minVolume, lookupPosition, setPosition, removePosition,
    calculateWeightedAveragePrice]

/-- C1 amended: in `StrategyManager.execute_strategy` the buy target is
total_assets × ratio minus the held market value, and a non-positive
remainder completes the strategy with no order rather than an error;
`StockTrader.buy_stock`, by contrast, sizes without consulting the
existing holding — its outcome is unchanged under arbitrary changes to
the position store (given the same cash). -/
theorem strategy_buy_sizing_needed_value (totalAssets mv price : ℚ)
    (positionPct : ℤ) (env : BuyEnv) (st1 st2 : TraderState)
    (hcash : st1.totalCash = st2.totalCash) :
    (totalAssets * ((positionPct : ℚ) / 100) - mv ≤ 0 →
      executeStrategyBuySizing totalAssets positionPct price (some mv) =
        .completedNoAction) ∧
    (0 < totalAssets * ((positionPct : ℚ) / 100) - mv →
      executeStrategyBuySizing totalAssets positionPct price (some mv) =
        (if pyInt ((totalAssets * ((positionPct : ℚ) / 100) - mv) / price / 100) *
            100 = 0 then .pendingInsufficient
         else .order (pyInt ((totalAssets * ((positionPct : ℚ) / 100) - mv) /
            price / 100) * 100))) ∧
    (buyStock env st1).1 = (buyStock env st2).1 := by
  refine ⟨fun hle => ?_, fun hpos => ?_, ?_⟩
  · simp [executeStrategyBuySizing, hle]
  · simp [executeStrategyBuySizing, not_le.mpr hpos]
  · simp only [buyStock, hcash]
    split_ifs <;> simp

/-- Witness for C1 amended, at total assets 1000000, ratio 10, price 100
and a held market value of 200000. -/
theorem strategy_buy_sizing_needed_value_witness :
    executeStrategyBuySizing 1000000 10 100 (some 200000) = .completedNoAction := by
  exact (strategy_buy_sizing_needed_value 1000000 200000 100 10 exBuyEnvHeld
    exStateHeld exStateHeld rfl).1 (by norm_num)

/-- C2 counterexample: a buy instruction with min_price 10 and max_price
20 while the quote is 9 (strictly below the minimum, not above the
maximum) is rejected by `buy_stock` with PriceNotMatched instead of
proceeding at the favorable price. -/
theorem buy_below_min_rejected_cx :
    buyStock exBuyEnvBelowMin exState0 = (.err .priceNotMatched, exState0) := by
  norm_num [buyStock, exBuyEnvBelowMin, exBuyEnvHeld]

/-- C2 amended: for any buy whose quote is strictly below a configured
min_price, `buy_stock` raises PriceNotMatched without touching the
state, even though the shared band resolver `_get_current_price` would
accept the price as favorable for a buy. -/
theorem buy_below_min_price_split (env : BuyEnv) (st : TraderState) (lo : ℚ)
    (hmin : env.minPrice = some lo) (hlt : env.quotePrice < lo) :
    buyStock env st = (.err .priceNotMatched, st) ∧
    getCurrentPrice env.quotePrice env.minPrice env.maxPrice "buy" =
      some env.quotePrice := by
  constructor
  · simp [buyStock, hmin, hlt]
  · cases hmax : env.maxPrice with
    | none => simp [getCurrentPrice, hmin, hmax, not_le.mpr hlt]
    | some hi => simp [getCurrentPrice, hmin, hmax, not_le.mpr hlt, hlt]

/-- Witness for C2 amended at the quote 9, band [10, 20]. -/
theorem buy_below_min_price_split_witness :
    buyStock exBuyEnvBelowMin exState0 = (.err .priceNotMatched, exState0) ∧
    getCurrentPrice exBuyEnvBelowMin.quotePrice exBuyEnvBelowMin.minPrice
      exBuyEnvBelowMin.maxPrice "buy" = some exBuyEnvBelowMin.quotePrice := by
  exact buy_below_min_price_split exBuyEnvBelowMin exState0 10
    (by norm_num [exBuyEnvBelowMin, exBuyEnvHeld])
    (by norm_num [exBuyEnvBelowMin, exBuyEnvHeld])

/-- C3 counterexample: a buy call issued outside trading hours succeeds
instead of raising the calendar guard's InvalidTime error, because
`buy_stock` runs no calendar, frequency or price-deviation guard. -/
theorem buy_skips_calendar_guard_cx :
    exBuyEnvOffHours.isTradingTime = false ∧
    (buyStock exBuyEnvOffHours exState0).1 =
      .ok { status := "success", price := 100, volume := 1000, amount := 100000 } := by
  refine ⟨rfl, ?_⟩
  norm_num [buyStock, exBuyEnvOffHours, exBuyEnvHeld, exState0,
    calculateBuyVolume, pyInt, volumeStep, minVolume, lookupPosition,
    setPosition, removePosition]

/-- C3 amended: the guard order Calendar, Frequency, Price-Band,
Price-Deviation with first-failure-wins holds for `sell_stock` (after
its completed-status early return); `buy_stock` runs only the inline
price-band check and can never raise InvalidTime, FrequencyExceeded or
PriceDeviation. -/
theorem sell_guard_order (env : SellEnv) (st : TraderState)
    (hnc : strategyCompleted env.strategy = false) :
    (env.isTradingTime = false → sellStock env st = (.err .invalidTime, st)) ∧
    (env.isTradingTime = true →
      tradeFrequencyLimit ≤ (purgeTradeTimes st.tradeTimes env.now).length →
      sellStock env st = (.err .frequencyLimit,
        { st with tradeTimes := purgeTradeTimes st.tradeTimes env.now })) ∧
    (env.isTradingTime = true →
      (purgeTradeTimes st.tradeTimes env.now).length < tradeFrequencyLimit →
      getCurrentPrice env.quotePrice1 env.minPrice env.maxPrice "sell" = none →
      sellStock env st = (.err .priceNotMatched,
        { st with tradeTimes := purgeTradeTimes st.tradeTimes env.now ++ [env.now] })) ∧
    (∀ p : ℚ, env.isTradingTime = true →
      (purgeTradeTimes st.tradeTimes env.now).length < tradeFrequencyLimit →
      getCurrentPrice env.quotePrice1 env.minPrice env.maxPrice "sell" = some p →
      p ≠ 0 →
      maxPriceDeviation < |env.quotePrice2 - p| / p →
      sellStock env st = (.err .priceDeviation,
        { st with tradeTimes := purgeTradeTimes st.tradeTimes env.now ++ [env.now] })) ∧
    (∀ (benv : BuyEnv) (bst : TraderState),
      (buyStock benv bst).1 ≠ .err .invalidTime ∧
      (buyStock benv bst).1 ≠ .err .frequencyLimit ∧
      (buyStock benv bst).1 ≠ .err .priceDeviation) := by
  refine ⟨fun ht => ?_, fun ht hf => ?_, fun ht hf hg => ?_,
    fun p ht hf hg hp hdev => ?_, fun benv bst => ?_⟩
  · simp [sellStock, hnc, ht]
  · simp [sellStock, hnc, ht, hf]
  · simp [sellStock, hnc, ht, not_le.mpr hf, hg]
  · simp [sellStock, hnc, ht, not_le.mpr hf, hg, hp, hdev]
  · refine ⟨?_, ?_, ?_⟩ <;> · simp only [buyStock]
                              split_ifs <;> simp

/-- Witness for C3 amended: a sell outside trading hours raises
InvalidTime untouched. -/
theorem sell_guard_order_witness :
    sellStock exSellEnvOffHours exState0 = (.err .invalidTime, exState0) := by
  exact (sell_guard_order exSellEnvOffHours exState0 rfl).1 rfl

/-- C4 counterexample: a trim sizing request with original position ratio
0 (trim ratio 50, holding 1000) is not rejected: `_calculate_trim_volume`
falls back to plain sell sizing and returns 500. -/
theorem trim_zero_origin_fallback_cx :
    calculateTrimVolume 50 (some 0) 1000 = calculateSellVolume 50 1000 ∧
    calculateTrimVolume 50 (some 0) 1000 = 500 := by
  constructor
  · simp [calculateTrimVolume]
  · norm_num [calculateTrimVolume, calculateSellVolume, sellVolumeFinish, pyInt,
      volumeStep, minVolume]

/-- C4 amended: only the strategy-manager trim branch rejects a
non-positive original position ratio with the division-guard pending
failure; `StockTrader._calculate_trim_volume` instead falls back to
plain sell sizing when the ratio is 0 and silently returns 0 when it is
negative. -/
theorem trim_division_guard_paths (pos : BrokerPosition) (pct : ℤ)
    (hneg : pos.origPositionPct ≤ 0) (trimPct holdings : ℤ) (r : ℚ)
    (hr : r < 0) :
    executeStrategyTrimSizing (some pos) pct = .pendingInvalidRatio ∧
    calculateTrimVolume trimPct (some 0) holdings =
      calculateSellVolume trimPct holdings ∧
    calculateTrimVolume trimPct (some r) holdings = 0 := by
  refine ⟨?_, ?_, ?_⟩
  · simp [executeStrategyTrimSizing, hneg]
  · simp [calculateTrimVolume]
  · simp [calculateTrimVolume, ne_of_lt hr, le_of_lt hr]

/-- Witness for C4 amended at original ratio 0 (strategy manager) and
ratio -5 (trader trim sizing). -/
theorem trim_division_guard_paths_witness :
    executeStrategyTrimSizing
      (some { totalVolume := 1000, availableVolume := 1000,
              origPositionPct := 0 }) 50 = .pendingInvalidRatio ∧
    calculateTrimVolume 50 (some 0) 1000 = calculateSellVolume 50 1000 ∧
    calculateTrimVolume 50 (some (-5)) 1000 = 0 := by
  exact trim_division_guard_paths
    { totalVolume := 1000, availableVolume := 1000, origPositionPct := 0 }
    50 (by norm_num) 50 1000 (-5) (by norm_num)

lemma calculateBuyVolume_invariant (ta ac price : ℚ) (pct : ℤ) :
    calculateBuyVolume ta ac pct price % volumeStep = 0 ∧
    (calculateBuyVolume ta ac pct price = 0 ∨
      minVolume ≤ calculateBuyVolume ta ac pct price) := by
  simp only [calculateBuyVolume]
  split_ifs
  all_goals first
    | exact ⟨by decide, by decide⟩
    | exact ⟨Int.mul_emod_left _ _, Or.inr (not_lt.mp (by assumption))⟩

lemma sellVolumeFinish_invariant (sv h : ℤ) (hsv : 0 ≤ sv) (hh : 0 < h) :
    sellVolumeFinish sv h % volumeStep = 0 ∧
    (sellVolumeFinish sv h = 0 ∨ minVolume ≤ sellVolumeFinish sv h) := by
  simp only [sellVolumeFinish]
  have hsv1 : (0 : ℤ) ≤ min sv h := le_min hsv (le_of_lt hh)
  have hq0 : 0 ≤ pyInt (((min sv h : ℤ) : ℚ) / (volumeStep : ℚ)) := by
    refine pyInt_nonneg (div_nonneg ?_ (by norm_num [volumeStep]))
    exact_mod_cast hsv1
  split_ifs with hc
  · exact ⟨by decide, Or.inr le_rfl⟩
  · refine ⟨Int.mul_emod_left _ _, ?_⟩
    by_cases hq : pyInt (((min sv h : ℤ) : ℚ) / (volumeStep : ℚ)) = 0
    · exact Or.inl (by rw [hq]; ring)
    · right
      have h1 : 1 ≤ pyInt (((min sv h : ℤ) : ℚ) / (volumeStep : ℚ)) :=
        lt_of_le_of_ne hq0 (Ne.symm hq)
      calc minVolume = 1 * volumeStep := by decide
      _ ≤ pyInt (((min sv h : ℤ) : ℚ) / (volumeStep : ℚ)) * volumeStep :=
          mul_le_mul_of_nonneg_right h1 (by decide)

lemma calculateSellVolume_invariant (pct h : ℤ) :
    calculateSellVolume pct h % volumeStep = 0 ∧
    (calculateSellVolume pct h = 0 ∨ minVolume ≤ calculateSellVolume pct h) := by
  simp only [calculateSellVolume]
  split_ifs with h1 h2 h3 h4
  · simp
  · simp
  · exact sellVolumeFinish_invariant _ _ (by decide) (by omega)
  · simp
  · have hh : (0 : ℤ) < h := by omega
    have hpct : (0 : ℤ) < pct := by
      rcases not_or.mp h2 with ⟨hp, _⟩
      omega
    refine sellVolumeFinish_invariant _ _ (pyInt_nonneg ?_) hh
    have hhq : (0 : ℚ) ≤ (h : ℚ) := by exact_mod_cast le_of_lt hh
    have hpq : (0 : ℚ) ≤ (pct : ℚ) / 100 := by positivity
    exact mul_nonneg hhq hpq

lemma calculateTrimVolume_invariant (pct : ℤ) (orig : Option ℚ) (h : ℤ)
    (hpct : 0 ≤ pct) (hh : 0 < h) :
    calculateTrimVolume pct orig h % volumeStep = 0 ∧
    (calculateTrimVolume pct orig h = 0 ∨
      minVolume ≤ calculateTrimVolume pct orig h) := by
  cases orig with
  | none => exact calculateSellVolume_invariant pct h
  | some r =>
    by_cases hr0 : r = 0
    · simpa [calculateTrimVolume, hr0] using calculateSellVolume_invariant pct h
    · by_cases hrle : r ≤ 0
      · simp [calculateTrimVolume, hr0, hrle]
      · have hrpos : (0 : ℚ) < r := not_le.mp hrle
        have hfrac0 : (0 : ℚ) ≤ min ((pct : ℚ) / r) 1 := by
          refine le_min (div_nonneg ?_ (le_of_lt hrpos)) zero_le_one
          exact_mod_cast hpct
        have hfrac1 : min ((pct : ℚ) / r) 1 ≤ 1 := min_le_right _ _
        have hhq : (0 : ℚ) ≤ (h : ℚ) := by exact_mod_cast le_of_lt hh
        have harg0 : (0 : ℚ) ≤ (h : ℚ) * min ((pct : ℚ) / r) 1 :=
          mul_nonneg hhq hfrac0
        have hargle : (h : ℚ) * min ((pct : ℚ) / r) 1 ≤ (h : ℚ) := by
          calc (h : ℚ) * min ((pct : ℚ) / r) 1 ≤ (h : ℚ) * 1 :=
                mul_le_mul_of_nonneg_left hfrac1 hhq
          _ = (h : ℚ) := mul_one _
        have hsv0nn : 0 ≤ pyInt ((h : ℚ) * min ((pct : ℚ) / r) 1) :=
          pyInt_nonneg harg0
        have hsv0le : pyInt ((h : ℚ) * min ((pct : ℚ) / r) 1) ≤ h :=
          pyInt_le_of_le_int harg0 hargle
        set sv0 : ℤ := pyInt ((h : ℚ) * min ((pct : ℚ) / r) 1) with hsv0def
        have hfd : Int.fdiv sv0 volumeStep = sv0 / volumeStep :=
          Int.fdiv_eq_ediv sv0 (by decide)
        have hq0 : 0 ≤ Int.fdiv sv0 volumeStep := by
          rw [hfd]; exact Int.ediv_nonneg hsv0nn (by decide)
        have hmulle : Int.fdiv sv0 volumeStep * volumeStep ≤ sv0 := by
          rw [hfd]; exact Int.ediv_mul_le sv0 (by decide)
        simp only [calculateTrimVolume, hr0, hrle, if_false,
          if_neg (fun hx => hr0 hx), if_neg hrle]
        by_cases hz : Int.fdiv sv0 volumeStep * volumeStep = 0 ∧ minVolume ≤ h
        · rw [if_pos hz, min_eq_left hz.2]
          exact ⟨by decide, Or.inr le_rfl⟩
        · rw [if_neg hz]
          by_cases hq : Int.fdiv sv0 volumeStep = 0
          · have hz2 : ¬ minVolume ≤ h := fun hle => hz ⟨by rw [hq]; ring, hle⟩
            have : min (Int.fdiv sv0 volumeStep * volumeStep) h = 0 := by
              rw [hq, zero_mul]
              exact min_eq_left (le_of_lt hh)
            rw [this]
            simp
          · have h1 : 1 ≤ Int.fdiv sv0 volumeStep := lt_of_le_of_ne hq0 (Ne.symm hq)
            have hmin : min (Int.fdiv sv0 volumeStep * volumeStep) h =
                Int.fdiv sv0 volumeStep * volumeStep :=
              min_eq_left (le_trans hmulle hsv0le)
            rw [hmin]
            refine ⟨Int.mul_emod_left _ _, Or.inr ?_⟩
            calc minVolume = 1 * volumeStep := by decide
            _ ≤ Int.fdiv sv0 volumeStep * volumeStep :=
                mul_le_mul_of_nonneg_right h1 (by decide)

/-- C5: every sizing result is a multiple of the configured volume step,
and is 0 or at least the configured minimum volume.  Buy and sell sizing
satisfy this unconditionally; trim sizing under a non-negative trim ratio
(instruction ratios are 0-100) and a positive holding (`sell_stock`
checks the holding before calling the trim sizer). -/
theorem sizing_volume_invariants :
    (∀ (ta ac price : ℚ) (pct : ℤ),
      calculateBuyVolume ta ac pct price % volumeStep = 0 ∧
      (calculateBuyVolume ta ac pct price = 0 ∨
        minVolume ≤ calculateBuyVolume ta ac pct price)) ∧
    (∀ pct h : ℤ,
      calculateSellVolume pct h % volumeStep = 0 ∧
      (calculateSellVolume pct h = 0 ∨ minVolume ≤ calculateSellVolume pct h)) ∧
    (∀ (pct : ℤ) (orig : Option ℚ) (h : ℤ), 0 ≤ pct → 0 < h →
      calculateTrimVolume pct orig h % volumeStep = 0 ∧
      (calculateTrimVolume pct orig h = 0 ∨
        minVolume ≤ calculateTrimVolume pct orig h)) :=
  ⟨fun ta ac price pct => calculateBuyVolume_invariant ta ac price pct,
   fun pct h => calculateSellVolume_invariant pct h,
   fun pct orig h hpct hh => calculateTrimVolume_invariant pct orig h hpct hh⟩

/-- Witness for C5: trim sizing at ratio 25, original ratio 50, holding
1000. -/
theorem sizing_volume_invariants_witness :
    calculateTrimVolume 25 (some 50) 1000 % volumeStep = 0 ∧
    (calculateTrimVolume 25 (some 50) 1000 = 0 ∨
      minVolume ≤ calculateTrimVolume 25 (some 50) 1000) :=
  sizing_volume_invariants.2.2 25 (some 50) 1000 (by decide) (by decide)

lemma purgeTradeTimes_eq_filter (times : List ℚ) (now : ℚ)
    (hs : times.Sorted (· ≤ ·)) :
    purgeTradeTimes times now = times.filter (fun t => decide (now - t ≤ 60)) := by
  induction times with
  | nil => rfl
  | cons a l ih =>
    rw [List.sorted_cons] at hs
    by_cases hcond : 60 < now - a
    · have h1 : ¬ now - a ≤ 60 := not_le.mpr hcond
      rw [purgeTradeTimes, List.dropWhile_cons, if_pos (by simpa using hcond),
        List.filter_cons, if_neg (by simpa using h1)]
      exact ih hs.2
    · have h1 : now - a ≤ 60 := not_lt.mp hcond
      rw [purgeTradeTimes, List.dropWhile_cons, if_neg (by simpa using hcond),
        List.filter_cons, if_pos (by simpa using h1)]
      congr 1
      refine (List.filter_eq_self.mpr ?_).symm
      intro x hx
      have hax := hs.1 x hx
      simp only [decide_eq_true_eq]
      linarith

lemma count_filter_cases (p : ℚ → Bool) (l : List ℚ) (x : ℚ) :
    (l.filter p).count x = if p x = true then l.count x else 0 := by
  by_cases hp : p x = true
  · rw [if_pos hp, List.count_filter hp]
  · rw [if_neg hp]
    exact List.count_eq_zero.mpr (fun hmem => hp (List.of_mem_filter hmem))

lemma countP_le_of_count_le (p : ℚ → Bool) (l1 l2 : List ℚ)
    (hc : ∀ x : ℚ, p x = true → l1.count x ≤ l2.count x) :
    l1.countP p ≤ l2.countP p := by
  have hle : ((l1.filter p : List ℚ) : Multiset ℚ) ≤
      ((l2.filter p : List ℚ) : Multiset ℚ) := by
    rw [Multiset.le_iff_count]
    intro a
    simp only [Multiset.coe_count]
    rw [count_filter_cases, count_filter_cases]
    by_cases hp : p a = true
    · simpa [hp] using hc a hp
    · simp [hp]
  have hcard := Multiset.card_le_card hle
  simpa [List.countP_eq_length_filter] using hcard

lemma runFreq_length_invariant (calls : List ℚ) :
    ∀ st : List ℚ, st.length ≤ tradeFrequencyLimit →
      (runFreq st calls).2.length ≤ tradeFrequencyLimit := by
  induction calls with
  | nil => intro st h; simpa [runFreq] using h
  | cons t ts ih =>
    intro st h
    have hple : (purgeTradeTimes st t).length ≤ st.length :=
      (List.dropWhile_sublist _).length_le
    by_cases hrej : tradeFrequencyLimit ≤ (purgeTradeTimes st t).length
    · have hstep : runFreq st (t :: ts) = runFreq (purgeTradeTimes st t) ts := by
        simp [runFreq, checkTradeFrequency, hrej]
      rw [hstep]
      exact ih _ (le_trans hple h)
    · have hstep : runFreq st (t :: ts) =
          (t :: (runFreq (purgeTradeTimes st t ++ [t]) ts).1,
           (runFreq (purgeTradeTimes st t ++ [t]) ts).2) := by
        simp [runFreq, checkTradeFrequency, hrej]
      rw [hstep]
      refine ih _ ?_
      rw [List.length_append, List.length_singleton]
      omega

lemma runFreq_window_invariant (calls : List ℚ) :
    ∀ (st acc : List ℚ) (tprev : ℚ),
      calls.Sorted (· ≤ ·) →
      (∀ t ∈ calls, tprev ≤ t) →
      st.Sorted (· ≤ ·) →
      (∀ x ∈ st, x ≤ tprev) →
      st.length ≤ tradeFrequencyLimit →
      (∀ x ∈ acc, x ≤ tprev) →
      (∀ x : ℚ, tprev - 60 ≤ x → acc.count x ≤ st.count x) →
      (∀ s : ℚ, windowCount acc s ≤ tradeFrequencyLimit) →
      ∀ s : ℚ, windowCount (acc ++ (runFreq st calls).1) s ≤ tradeFrequencyLimit := by
  induction calls with
  | nil =>
    intro st acc tprev _ _ _ _ _ _ _ hwin s
    simpa [runFreq, windowCount] using hwin s
  | cons t ts ih =>
    intro st acc tprev hcallsSorted hcallsGe hstSorted hstLe hstLen haccLe
      haccCnt hwin s
    rw [List.sorted_cons] at hcallsSorted
    have htprev : tprev ≤ t := hcallsGe t (List.mem_cons_self t ts)
    have hpurge := purgeTradeTimes_eq_filter st t hstSorted
    have hpurgedSorted : (purgeTradeTimes st t).Sorted (· ≤ ·) := by
      rw [hpurge]; exact hstSorted.filter _
    have hpurgedSub : ∀ x ∈ purgeTradeTimes st t, x ∈ st := by
      intro x hx; rw [hpurge] at hx; exact List.mem_of_mem_filter hx
    have hpurgedLe : ∀ x ∈ purgeTradeTimes st t, x ≤ t :=
      fun x hx => le_trans (hstLe x (hpurgedSub x hx)) htprev
    have hpurgedLen : (purgeTradeTimes st t).length ≤ st.length :=
      (List.dropWhile_sublist _).length_le
    have hpurgedCnt : ∀ x : ℚ, t - 60 ≤ x →
        (purgeTradeTimes st t).count x = st.count x := by
      intro x hx
      rw [hpurge, count_filter_cases]
      have hd : t - x ≤ 60 := by linarith
      simp [hd]
    have haccCnt2 : ∀ x : ℚ, t - 60 ≤ x →
        acc.count x ≤ (purgeTradeTimes st t).count x := by
      intro x hx
      rw [hpurgedCnt x hx]
      exact haccCnt x (by linarith)
    by_cases hrej : tradeFrequencyLimit ≤ (purgeTradeTimes st t).length
    · have hstep : runFreq st (t :: ts) = runFreq (purgeTradeTimes st t) ts := by
        simp [runFreq, checkTradeFrequency, hrej]
      rw [hstep]
      refine ih (purgeTradeTimes st t) acc t hcallsSorted.2 hcallsSorted.1
        hpurgedSorted hpurgedLe (le_trans hpurgedLen hstLen)
        (fun x hx => le_trans (haccLe x hx) htprev) haccCnt2 hwin s
    · have hstep : runFreq st (t :: ts) =
          (t :: (runFreq (purgeTradeTimes st t ++ [t]) ts).1,
           (runFreq (purgeTradeTimes st t ++ [t]) ts).2) := by
        simp [runFreq, checkTradeFrequency, hrej]
      rw [hstep]
      have hgoalEq : windowCount (acc ++ t ::
            (runFreq (purgeTradeTimes st t ++ [t]) ts).1) s =
          windowCount ((acc ++ [t]) ++
            (runFreq (purgeTradeTimes st t ++ [t]) ts).1) s := by
        simp only [windowCount, List.countP_append, List.countP_cons,
          List.countP_nil]
        omega
      rw [hgoalEq]
      have hstSorted2 : (purgeTradeTimes st t ++ [t]).Sorted (· ≤ ·) := by
        refine List.pairwise_append.mpr ⟨hpurgedSorted, List.sorted_singleton t, ?_⟩
        intro a ha b hb
        rw [List.mem_singleton] at hb
        rw [hb]
        exact hpurgedLe a ha
      have hstLe2 : ∀ x ∈ purgeTradeTimes st t ++ [t], x ≤ t := by
        intro x hx
        rcases List.mem_append.mp hx with hx | hx
        · exact hpurgedLe x hx
        · rw [List.mem_singleton] at hx; rw [hx]
      have hstLen2 : (purgeTradeTimes st t ++ [t]).length ≤ tradeFrequencyLimit := by
        rw [List.length_append, List.length_singleton]
        omega
      have haccLe2 : ∀ x ∈ acc ++ [t], x ≤ t := by
        intro x hx
        rcases List.mem_append.mp hx with hx | hx
        · exact le_trans (haccLe x hx) htprev
        · rw [List.mem_singleton] at hx; rw [hx]
      have haccCnt3 : ∀ x : ℚ, t - 60 ≤ x →
          (acc ++ [t]).count x ≤ (purgeTradeTimes st t ++ [t]).count x := by
        intro x hx
        rw [List.count_append, List.count_append]
        exact Nat.add_le_add_right (haccCnt2 x hx) _
      have hwin2 : ∀ s2 : ℚ, windowCount (acc ++ [t]) s2 ≤ tradeFrequencyLimit := by
        intro s2
        by_cases hin : s2 - 60 < t ∧ t ≤ s2
        · have hbound : windowCount acc s2 ≤ (purgeTradeTimes st t).length := by
            refine le_trans (countP_le_of_count_le _ acc
              (purgeTradeTimes st t) ?_) (List.countP_le_length _)
            intro x hpx
            rw [decide_eq_true_eq] at hpx
            refine haccCnt2 x ?_
            have h1 : s2 - 60 < x := hpx.1
            have h2 : t ≤ s2 := hin.2
            linarith
          have : windowCount (acc ++ [t]) s2 = windowCount acc s2 + 1 := by
            simp [windowCount, List.countP_append, List.countP_cons, hin]
          rw [this]
          omega
        · have : windowCount (acc ++ [t]) s2 = windowCount acc s2 := by
            simp [windowCount, List.countP_append, List.countP_cons, hin]
          rw [this]
          exact hwin s2
      exact ih (purgeTradeTimes st t ++ [t]) (acc ++ [t]) t hcallsSorted.2
        hcallsSorted.1 hstSorted2 hstLe2 hstLen2 haccLe2 haccCnt3 hwin2 s

/-- C8: with the configured frequency limit, no trailing 60-second window
ever contains more than the limit of accepted trade timestamps; an
attempt finding the window full is rejected by `sell_stock` with the
FrequencyExceeded error and changes nothing but the purged timestamp
deque; an accepted attempt records its timestamp in the deque; and the
deque stays bounded by the limit. -/
theorem frequency_window_bound (calls : List ℚ)
    (hsorted : calls.Sorted (· ≤ ·)) :
    (∀ s : ℚ, windowCount (runFreq [] calls).1 s ≤ tradeFrequencyLimit) ∧
    (∀ (times : List ℚ) (now : ℚ),
      (purgeTradeTimes times now).length < tradeFrequencyLimit →
      checkTradeFrequency times now = (true, purgeTradeTimes times now ++ [now])) ∧
    (∀ (env : SellEnv) (st : TraderState),
      strategyCompleted env.strategy = false → env.isTradingTime = true →
      tradeFrequencyLimit ≤ (purgeTradeTimes st.tradeTimes env.now).length →
      sellStock env st = (.err .frequencyLimit,
        { st with tradeTimes := purgeTradeTimes st.tradeTimes env.now })) ∧
    (runFreq [] calls).2.length ≤ tradeFrequencyLimit := by
  refine ⟨?_, ?_, ?_, ?_⟩
  · intro s
    cases calls with
    | nil => simp [runFreq, windowCount]
    | cons t ts =>
      have hge : ∀ u ∈ t :: ts, t ≤ u := by
        intro u hu
        rcases List.mem_cons.mp hu with hu | hu
        · rw [hu]
        · exact (List.sorted_cons.mp hsorted).1 u hu
      have := runFreq_window_invariant (t :: ts) [] [] t hsorted hge
        List.sorted_nil (by simp) (by simp) (by simp) (by simp)
        (by intro s2; simp [windowCount]) s
      simpa using this
  · intro times now hlt
    simp [checkTradeFrequency, not_le.mpr hlt]
  · intro env st hnc ht hf
    simp [sellStock, hnc, ht, hf]
  · exact runFreq_length_invariant calls [] (by simp)

/-- Witness for C8: eleven attempts in the same minute, at seconds 0
through 10; the window ending at second 10 holds at most ten accepted
trades. -/
theorem frequency_window_bound_witness :
    windowCount (runFreq [] [0, 1, 2, 3, 4, 5, 6, 7, 8, 9, 10]).1 10 ≤
      tradeFrequencyLimit := by
  refine (frequency_window_bound [0, 1, 2, 3, 4, 5, 6, 7, 8, 9, 10] ?_).1 10
  norm_num [List.sorted_cons]

/-- C9: if a sell call fails with PriceNotMatched or NoPosition — both
raised after the frequency gate — its timestamp has nevertheless been
appended to the frequency window, so the blocked attempt consumes the
60-second budget exactly like an executed trade. -/
theorem blocked_sell_consumes_frequency_budget (env : SellEnv)
    (st : TraderState)
    (h : (sellStock env st).1 = .err .priceNotMatched ∨
         (sellStock env st).1 = .err .noPosition) :
    (sellStock env st).2.tradeTimes =
      purgeTradeTimes st.tradeTimes env.now ++ [env.now] := by
  cases hc : strategyCompleted env.strategy with
  | true => rcases h with h | h <;> simp [sellStock, hc] at h
  | false =>
    cases ht : env.isTradingTime with
    | false => rcases h with h | h <;> simp [sellStock, hc, ht] at h
    | true =>
      by_cases hf : tradeFrequencyLimit ≤ (purgeTradeTimes st.tradeTimes env.now).length
      · rcases h with h | h <;> simp [sellStock, hc, ht, hf] at h
      · simp only [sellStock, hc, ht, hf]
        cases hg : getCurrentPrice env.quotePrice1 env.minPrice env.maxPrice "sell" with
        | none => simp
        | some p =>
          by_cases hp : p = 0
          · simp [hp]
          · by_cases hdev : maxPriceDeviation < |env.quotePrice2 - p| / p
            · simp [hp, hdev]
            · cases hl : lookupPosition st.positions env.stockCode with
              | none => simp [hp, hdev]
              | some pos =>
                by_cases hv : pos.volume ≤ 0
                · simp [hp, hdev, hv]
                · by_cases hvol : (if isTrimStrategy env.strategy then
                      calculateTrimVolume env.positionPct env.origPositionPct
                        pos.volume
                    else calculateSellVolume env.positionPct pos.volume) ≤ 0
                  · simp [hp, hdev, hv, hvol]
                  · by_cases hle : pos.volume ≤ (if isTrimStrategy env.strategy then
                        calculateTrimVolume env.positionPct env.origPositionPct
                          pos.volume
                      else calculateSellVolume env.positionPct pos.volume)
                    · simp [hp, hdev, hv, hvol, hle]
                    · simp [hp, hdev, hv, hvol, hle]

/-- Witness for C9: the sell of `exSellEnvPNM` is blocked by the price
band, yet its timestamp 0 is recorded in the frequency window. -/
theorem blocked_sell_consumes_frequency_budget_witness :
    (sellStock exSellEnvPNM exState0).2.tradeTimes =
      purgeTradeTimes exState0.tradeTimes exSellEnvPNM.now ++
        [exSellEnvPNM.now] := by
  refine blocked_sell_consumes_frequency_budget exSellEnvPNM exState0 (Or.inl ?_)
  norm_num [sellStock, exSellEnvPNM, exState0, strategyCompleted,
    purgeTradeTimes, tradeFrequencyLimit, getCurrentPrice]
  simp

/-- C10: a sell call whose fetched strategy execution status is already
completed returns a success result with price 0, volume 0 and amount 0
and leaves the state untouched — no trading-time, frequency, price or
position check runs and no ledger field changes. -/
theorem completed_strategy_sell_noop (env : SellEnv) (st : TraderState)
    (s : StrategyInfo) (hs : env.strategy = some s)
    (hc : s.executionStatus = "completed") :
    sellStock env st =
      (.ok { status := "success", price := 0, volume := 0, amount := 0 }, st) := by
  have hb : strategyCompleted env.strategy = true := by
    simp [strategyCompleted, hs, hc]
  simp [sellStock, hb]

/-- Witness for C10: the completed-strategy sell of `exSellEnvCompleted`
(issued outside trading hours) still reports success with zeros and
leaves the state unchanged. -/
theorem completed_strategy_sell_noop_witness :
    sellStock exSellEnvCompleted exState0 =
      (.ok { status := "success", price := 0, volume := 0, amount := 0 },
       exState0) := by
  exact completed_strategy_sell_noop exSellEnvCompleted exState0
    { action := "sell", executionStatus := "completed" } rfl rfl

end QMT
